import Mathlib

/-!
Verification development for the chunked NVD threat-intel ingestion worker
(src/cloudflare/worker-threat-intel-ingest.js) and the log-queue sender
(src/utils/log.js).

The JavaScript is shallowly embedded: loosely-typed upstream JSON values are
modelled by the inductive JsVal (numbers are modelled as integers; none of the
verified properties inspects fractional values), exceptions by Except, the D1
database effects by explicit state passing, and per-record D1 outcomes by an
oracle indexed by the attempt number.
-/

namespace ThreatIntel

/-- A JavaScript value as seen by the worker: the subset of shapes a parsed
JSON body (plus the distinguished undefined value) can take. -/
inductive JsVal where
  | undef : JsVal
  | null : JsVal
  | bool (b : Bool) : JsVal
  | num (n : Int) : JsVal
  | str (s : String) : JsVal
  | arr (elems : List JsVal) : JsVal
  | obj (fields : List (String × JsVal)) : JsVal
deriving Repr

mutual

/-- Structural equality test on JavaScript values. -/
def JsVal.beq : JsVal → JsVal → Bool
  | .undef, .undef => true
  | .null, .null => true
  | .bool a, .bool b => a == b
  | .num a, .num b => a == b
  | .str a, .str b => a == b
  | .arr a, .arr b => JsVal.beqList a b
  | .obj a, .obj b => JsVal.beqFields a b
  | _, _ => false

/-- Structural equality test on lists of JavaScript values. -/
def JsVal.beqList : List JsVal → List JsVal → Bool
  | [], [] => true
  | x :: xs, y :: ys => JsVal.beq x y && JsVal.beqList xs ys
  | _, _ => false

/-- Structural equality test on object field lists. -/
def JsVal.beqFields : List (String × JsVal) → List (String × JsVal) → Bool
  | [], [] => true
  | (k1, v1) :: xs, (k2, v2) :: ys =>
      k1 == k2 && JsVal.beq v1 v2 && JsVal.beqFields xs ys
  | _, _ => false

end

mutual

theorem JsVal.beq_refl : ∀ a : JsVal, JsVal.beq a a = true
  | .undef => rfl
  | .null => rfl
  | .bool b => by simp [JsVal.beq]
  | .num n => by simp [JsVal.beq]
  | .str s => by simp [JsVal.beq]
  | .arr a => by simp [JsVal.beq, JsVal.beqList_refl a]
  | .obj a => by simp [JsVal.beq, JsVal.beqFields_refl a]

theorem JsVal.beqList_refl : ∀ l : List JsVal, JsVal.beqList l l = true
  | [] => rfl
  | x :: xs => by simp [JsVal.beqList, JsVal.beq_refl x, JsVal.beqList_refl xs]

theorem JsVal.beqFields_refl : ∀ l : List (String × JsVal), JsVal.beqFields l l = true
  | [] => rfl
  | (k, v) :: xs => by simp [JsVal.beqFields, JsVal.beq_refl v, JsVal.beqFields_refl xs]

end

mutual

theorem JsVal.beq_sound : ∀ a b : JsVal, JsVal.beq a b = true → a = b
  | .undef, .undef, _ => rfl
  | .null, .null, _ => rfl
  | .bool a, .bool b, h => by simpa [JsVal.beq] using h
  | .num a, .num b, h => by simpa [JsVal.beq] using h
  | .str a, .str b, h => by simpa [JsVal.beq] using h
  | .arr a, .arr b, h => by
      rw [JsVal.beqList_sound a b (by simpa [JsVal.beq] using h)]
  | .obj a, .obj b, h => by
      rw [JsVal.beqFields_sound a b (by simpa [JsVal.beq] using h)]
  | .undef, .null, h => by simp [JsVal.beq] at h
  | .undef, .bool _, h => by simp [JsVal.beq] at h
  | .undef, .num _, h => by simp [JsVal.beq] at h
  | .undef, .str _, h => by simp [JsVal.beq] at h
  | .undef, .arr _, h => by simp [JsVal.beq] at h
  | .undef, .obj _, h => by simp [JsVal.beq] at h
  | .null, .undef, h => by simp [JsVal.beq] at h
  | .null, .bool _, h => by simp [JsVal.beq] at h
  | .null, .num _, h => by simp [JsVal.beq] at h
  | .null, .str _, h => by simp [JsVal.beq] at h
  | .null, .arr _, h => by simp [JsVal.beq] at h
  | .null, .obj _, h => by simp [JsVal.beq] at h
  | .bool _, .undef, h => by simp [JsVal.beq] at h
  | .bool _, .null, h => by simp [JsVal.beq] at h
  | .bool _, .num _, h => by simp [JsVal.beq] at h
  | .bool _, .str _, h => by simp [JsVal.beq] at h
  | .bool _, .arr _, h => by simp [JsVal.beq] at h
  | .bool _, .obj _, h => by simp [JsVal.beq] at h
  | .num _, .undef, h => by simp [JsVal.beq] at h
  | .num _, .null, h => by simp [JsVal.beq] at h
  | .num _, .bool _, h => by simp [JsVal.beq] at h
  | .num _, .str _, h => by simp [JsVal.beq] at h
  | .num _, .arr _, h => by simp [JsVal.beq] at h
  | .num _, .obj _, h => by simp [JsVal.beq] at h
  | .str _, .undef, h => by simp [JsVal.beq] at h
  | .str _, .null, h => by simp [JsVal.beq] at h
  | .str _, .bool _, h => by simp [JsVal.beq] at h
  | .str _, .num _, h => by simp [JsVal.beq] at h
  | .str _, .arr _, h => by simp [JsVal.beq] at h
  | .str _, .obj _, h => by simp [JsVal.beq] at h
  | .arr _, .undef, h => by simp [JsVal.beq] at h
  | .arr _, .null, h => by simp [JsVal.beq] at h
  | .arr _, .bool _, h => by simp [JsVal.beq] at h
  | .arr _, .num _, h => by simp [JsVal.beq] at h
  | .arr _, .str _, h => by simp [JsVal.beq] at h
  | .arr _, .obj _, h => by simp [JsVal.beq] at h
  | .obj _, .undef, h => by simp [JsVal.beq] at h
  | .obj _, .null, h => by simp [JsVal.beq] at h
  | .obj _, .bool _, h => by simp [JsVal.beq] at h
  | .obj _, .num _, h => by simp [JsVal.beq] at h
  | .obj _, .str _, h => by simp [JsVal.beq] at h
  | .obj _, .arr _, h => by simp [JsVal.beq] at h

theorem JsVal.beqList_sound : ∀ a b : List JsVal, JsVal.beqList a b = true → a = b
  | [], [], _ => rfl
  | x :: xs, y :: ys, h => by
      have h1 : JsVal.beq x y = true := by
        simpa [JsVal.beqList, Bool.and_eq_true] using And.left (by simpa [JsVal.beqList, Bool.and_eq_true] using h)
      have h2 : JsVal.beqList xs ys = true := by
        simpa [JsVal.beqList, Bool.and_eq_true] using And.right (by simpa [JsVal.beqList, Bool.and_eq_true] using h)
      rw [JsVal.beq_sound x y h1, JsVal.beqList_sound xs ys h2]
  | [], _ :: _, h => by simp [JsVal.beqList] at h
  | _ :: _, [], h => by simp [JsVal.beqList] at h

theorem JsVal.beqFields_sound :
    ∀ a b : List (String × JsVal), JsVal.beqFields a b = true → a = b
  | [], [], _ => rfl
  | (k1, v1) :: xs, (k2, v2) :: ys, h => by
      have h' := (by simpa [JsVal.beqFields, Bool.and_eq_true] using h :
        (k1 = k2 ∧ JsVal.beq v1 v2 = true) ∧ JsVal.beqFields xs ys = true)
      rw [h'.1.1, JsVal.beq_sound v1 v2 h'.1.2, JsVal.beqFields_sound xs ys h'.2]
  | [], _ :: _, h => by simp [JsVal.beqFields] at h
  | _ :: _, [], h => by simp [JsVal.beqFields] at h

end

instance : DecidableEq JsVal := fun a b =>
  if h : JsVal.beq a b = true then .isTrue (JsVal.beq_sound a b h)
  else .isFalse (fun he => h (he ▸ JsVal.beq_refl a))

/-- A thrown JavaScript exception, as observed by the worker's catch blocks. -/
inductive JsErr where
  | typeError (msg : String) : JsErr
  | jsonParse : JsErr
deriving Repr, DecidableEq

namespace JsVal

/-- JavaScript truthiness: undefined, null, false, 0 and the empty string are
falsy; every other value (including any array or object) is truthy. -/
def truthy : JsVal → Bool
  | .undef => false
  | .null => false
  | .bool b => b
  | .num n => n != 0
  | .str s => !s.isEmpty
  | .arr _ => true
  | .obj _ => true

/-- Optional chaining property access, a?.k: nullish receivers short-circuit
to undefined; property access on a primitive yields undefined (none of the
built-in properties matter to this worker). -/
def optProp : JsVal → String → JsVal
  | .undef, _ => .undef
  | .null, _ => .undef
  | .bool _, _ => .undef
  | .num _, _ => .undef
  | .str _, _ => .undef
  | .arr _, _ => .undef
  | .obj fields, k => ((fields.lookup k).getD .undef)

/-- Plain property access, a.k: throws a TypeError on a nullish receiver,
otherwise behaves like optional access. -/
def getProp : JsVal → String → Except JsErr JsVal
  | .undef, k => .error (.typeError ("Cannot read properties of undefined (reading " ++ k ++ ")"))
  | .null, k => .error (.typeError ("Cannot read properties of null (reading " ++ k ++ ")"))
  | v, k => .ok (optProp v k)

/-- Optional chaining index access, a?.[i]: nullish receivers short-circuit;
array indexing out of range yields undefined; a one-character string results
from indexing into a string; other primitives yield undefined. -/
def optIndex : JsVal → Nat → JsVal
  | .undef, _ => .undef
  | .null, _ => .undef
  | .bool _, _ => .undef
  | .num _, _ => .undef
  | .arr elems, i => elems.getD i .undef
  | .str s, i => if h : i < s.length then .str (String.mk [s.data.get ⟨i, h⟩]) else .undef
  | .obj fields, i => ((fields.lookup (toString i)).getD .undef)

/-- JavaScript logical or, a || b: the left operand if truthy, else the right. -/
def jsOr (a b : JsVal) : JsVal :=
  if truthy a then a else b

mutual

/-- Stringification used by Array.prototype.join and by array elements inside
template literals: null and undefined render as the empty string. -/
def joinStr : JsVal → String
  | .undef => ""
  | .null => ""
  | .bool b => if b then "true" else "false"
  | .num n => toString n
  | .str s => s
  | .arr elems => joinStrList elems
  | .obj _ => "[object Object]"

/-- Comma-joined stringification of a list of JavaScript values. -/
def joinStrList : List JsVal → String
  | [] => ""
  | [x] => joinStr x
  | x :: y :: rest => joinStr x ++ "," ++ joinStrList (y :: rest)

end

/-- Stringification used by template literals (interpolation into a string). -/
def templateStr : JsVal → String
  | .undef => "undefined"
  | .null => "null"
  | .bool b => if b then "true" else "false"
  | .num n => toString n
  | .str s => s
  | .arr elems => joinStrList elems
  | .obj _ => "[object Object]"

end JsVal

open JsVal

/-- The canonical record produced by processVulnerabilityItem: the object
literal returned at the end of the function, field for field. -/
structure VulnRecord where
  cveId : JsVal
  link : String
  description : JsVal
  source : JsVal
  published : JsVal
  lastModified : JsVal
  baseScore : JsVal
  baseSeverity : JsVal
  vectorString : JsVal
  cwe : JsVal
  refUrls : JsVal
  fetched_at : String
deriving Repr, DecidableEq

/-- Models cveData.references?.map((ref) => ref.url) element-wise: plain
property access ref.url throws on a null or undefined array element. -/
def refUrlList : List JsVal → Except JsErr (List JsVal)
  | [] => .ok []
  | ref :: rest => do
    let u ← ref.getProp "url"
    let us ← refUrlList rest
    .ok (u :: us)

/-- Models cveData.references?.map((ref) => ref.url).filter(Boolean).join(","):
a nullish references field short-circuits the whole chain to undefined; a
non-array, non-nullish references field makes .map throw a TypeError. -/
def jsMapUrlsJoin : JsVal → Except JsErr JsVal
  | .undef => .ok .undef
  | .null => .ok .undef
  | .arr elems => do
    let urls ← refUrlList elems
    .ok (.str (joinStrList (urls.filter truthy)))
  | _ => .error (.typeError "cveData.references.map is not a function")

/-- Models Array.prototype.find over descriptions with the predicate
(d) => d.lang === "en", followed by ?.value: the plain access d.lang throws
on a null or undefined element reached before a match. -/
def findEnValue : List JsVal → Except JsErr JsVal
  | [] => .ok .undef
  | d :: rest => do
    let lang ← d.getProp "lang"
    if lang = .str "en" then .ok (d.optProp "value") else findEnValue rest

/-- Models cveData.descriptions?.find((d) => d.lang === "en")?.value: nullish
descriptions short-circuit to undefined; a non-array, non-nullish value makes
.find throw a TypeError. -/
def jsFindEnValue : JsVal → Except JsErr JsVal
  | .undef => .ok .undef
  | .null => .ok .undef
  | .arr elems => findEnValue elems
  | _ => .error (.typeError "cveData.descriptions.find is not a function")

/-- The record normalizer processVulnerabilityItem: converts one raw NVD item
to the simplified record, or null (modelled as none) when the item has no
truthy cve.id; exceptions escaping the function appear as Except.error.
new Date().toISOString() is passed in as now. -/
def processVulnerabilityItem (item : JsVal) (now : String) :
    Except JsErr (Option VulnRecord) :=
  if truthy (optProp (optProp item "cve") "id") = false then .ok none
  else do
    let cveData ← item.getProp "cve"
    let metricsRaw ← cveData.getProp "metrics"
    let metricsV31 := optProp (optIndex (optProp metricsRaw "cvssMetricV31") 0) "cvssData"
    let metricsV2 := optProp (optIndex (optProp metricsRaw "cvssMetricV2") 0) "cvssData"
    let metrics := jsOr metricsV31 (jsOr metricsV2 (.obj []))
    let refsRaw ← cveData.getProp "references"
    let cleanedRefUrls ← jsMapUrlsJoin refsRaw
    let cveId ← cveData.getProp "id"
    let descsRaw ← cveData.getProp "descriptions"
    let descVal ← jsFindEnValue descsRaw
    let sourceIdent ← cveData.getProp "sourceIdentifier"
    let published ← cveData.getProp "published"
    let lastModified ← cveData.getProp "lastModified"
    let baseScore ← metrics.getProp "baseScore"
    let baseSevV2 := optProp (optIndex (optProp metricsRaw "cvssMetricV2") 0) "baseSeverity"
    let vectorString ← metrics.getProp "vectorString"
    let weaknesses ← cveData.getProp "weaknesses"
    let cwe := optProp (optIndex (optProp (optIndex weaknesses 0) "description") 0) "value"
    .ok (some {
      cveId := cveId
      link := "https://nvd.nist.gov/vuln/detail/" ++ templateStr cveId
      description := jsOr descVal (.str "")
      source := jsOr sourceIdent (.str "NVD")
      published := jsOr published .null
      lastModified := jsOr lastModified .null
      baseScore := jsOr baseScore .null
      baseSeverity := jsOr (optProp metricsV31 "baseSeverity") (jsOr baseSevV2 .null)
      vectorString := jsOr vectorString .null
      cwe := jsOr cwe .null
      refUrls := jsOr cleanedRefUrls (.str "")
      fetched_at := now })

/-- Models vulnerabilities.map(processVulnerabilityItem).filter(Boolean): the
valid records in order, with any exception from an item propagating out. -/
def processAll (items : List JsVal) (now : String) :
    Except JsErr (List VulnRecord) :=
  match items with
  | [] => .ok []
  | x :: xs => do
    let r ← processVulnerabilityItem x now
    let rest ← processAll xs now
    match r with
    | none => .ok rest
    | some rec => .ok (rec :: rest)

/-- One row of the fetch_metadata table (there is at most one per source, and
the chunked worker only ever uses the source "nvd", so the table is modelled
as an optional row). Timestamps are nullable in the schema. -/
structure Checkpoint where
  last_fetch_time : Option String
  last_success_time : Option String
  items_fetched : Int
  next_start_index : Int
deriving Repr, DecidableEq

/-- getFetchMetadata: reads the fetch_metadata row for the source; an absent
row (or a failed read, which the JS also maps to null) is none. -/
def getFetchMetadata (table : Option Checkpoint) : Option Checkpoint :=
  table

/-- updateFetchMetadata: the INSERT ... ON CONFLICT(source) DO UPDATE
statement, with the worker's literal bind values (source, fetchTime,
fetchTime, 0, nextStartIndex).  On conflict last_fetch_time is overwritten
with the excluded value, last_success_time only changes when the excluded
items_fetched (always the literal 0) is positive, items_fetched accumulates
by the excluded value (always 0), and next_start_index is overwritten. -/
def updateFetchMetadata (table : Option Checkpoint) (fetchTime : String)
    (nextStartIndex : Int) : Option Checkpoint :=
  match table with
  | none => some {
      last_fetch_time := some fetchTime
      last_success_time := some fetchTime
      items_fetched := 0
      next_start_index := nextStartIndex }
  | some old => some {
      last_fetch_time := some fetchTime
      last_success_time :=
        if (0 : Int) > 0 then some fetchTime else old.last_success_time
      items_fetched := old.items_fetched + 0
      next_start_index := nextStartIndex }

/-- One row of the vulnerabilities table, with the columns bound by the
worker's prepared INSERT statement. -/
structure VulnRow where
  cve_id : JsVal
  description : JsVal
  source_identifier : JsVal
  published : JsVal
  last_modified : JsVal
  base_score : JsVal
  base_severity : JsVal
  vector_string : JsVal
  cwe : JsVal
  ref_urls : JsVal
  created_at : String
deriving Repr, DecidableEq

/-- The row created when the INSERT does not conflict: every column takes the
bound record value (created_at takes vuln.fetched_at). -/
def rowOfRecord (r : VulnRecord) : VulnRow where
  cve_id := r.cveId
  description := r.description
  source_identifier := r.source
  published := r.published
  last_modified := r.lastModified
  base_score := r.baseScore
  base_severity := r.baseSeverity
  vector_string := r.vectorString
  cwe := r.cwe
  ref_urls := r.refUrls
  created_at := r.fetched_at

/-- The ON CONFLICT(cve_id) DO UPDATE SET clause: every mutable column is
overwritten from the excluded record; cve_id and created_at are not in the
SET list and keep the existing row's values. -/
def applyUpdate (row : VulnRow) (r : VulnRecord) : VulnRow :=
  { row with
    description := r.description
    source_identifier := r.source
    published := r.published
    last_modified := r.lastModified
    base_score := r.baseScore
    base_severity := r.baseSeverity
    vector_string := r.vectorString
    cwe := r.cwe
    ref_urls := r.refUrls }

/-- Whether the table holds a row whose cve_id equals the given key. -/
def containsKey (t : List VulnRow) (k : JsVal) : Bool :=
  t.any fun row => row.cve_id = k

/-- The in-place effect of the conflict clause on one row: rows whose cve_id
matches the bound record are updated, others are untouched. -/
def updKey (r : VulnRecord) (row : VulnRow) : VulnRow :=
  if row.cve_id = r.cveId then applyUpdate row r else row

/-- One execution of the prepared INSERT ... ON CONFLICT(cve_id) DO UPDATE
statement: update the conflicting row if the key is present, insert a fresh
row otherwise. -/
def upsertOne (t : List VulnRow) (r : VulnRecord) : List VulnRow :=
  if containsKey t r.cveId then t.map (updKey r)
  else t ++ [rowOfRecord r]

/-- Executing the upsert statement once per record, in list order. -/
def upsertBatch (t : List VulnRow) (rs : List VulnRecord) : List VulnRow :=
  rs.foldl upsertOne t

/-- The mutable loop state of storeVulnerabilitiesInD1: the table being
written, the success and error counters, the errorDetails accumulator
(cveId and error message per failed insert), and the number of insert
attempts made so far (the index into the D1 outcome oracle). -/
structure StoreSt where
  table : List VulnRow
  successCount : Nat
  errorCount : Nat
  errorDetails : List (JsVal × String)
  attemptIdx : Nat
deriving Repr, DecidableEq

/-- The body of the per-record loop in storeVulnerabilitiesInD1: a record
without a truthy cveId is skipped; otherwise the insert is attempted, and the
oracle says whether D1 throws for this attempt (some msg) or succeeds (none).
A throw is caught: it increments errorCount and records the detail. -/
def storeStep (oracle : Nat → Option String) (st : StoreSt) (r : VulnRecord) : StoreSt :=
  if truthy r.cveId = false then st
  else
    match oracle st.attemptIdx with
    | none =>
        { st with
          table := upsertOne st.table r
          successCount := st.successCount + 1
          attemptIdx := st.attemptIdx + 1 }
    | some msg =>
        { st with
          errorCount := st.errorCount + 1
          errorDetails := st.errorDetails ++ [(r.cveId, msg)]
          attemptIdx := st.attemptIdx + 1 }

/-- The inner for-loop over one slice of at most batchSize records. -/
def storeLoop (oracle : Nat → Option String) (st : StoreSt)
    (batch : List VulnRecord) : StoreSt :=
  batch.foldl (storeStep oracle) st

/-- Splits a list into consecutive slices of at most 200 elements, mirroring
the vulnerabilities.slice(i, i + batchSize) loop; the fuel argument bounds
the recursion and is unreachable at 0 whenever fuel is at least the list
length. -/
def slices200 : Nat → List VulnRecord → List (List VulnRecord)
  | _, [] => []
  | 0, l => [l]
  | fuel + 1, l => l.take 200 :: slices200 fuel (l.drop 200)

/-- The outer batch loop of storeVulnerabilitiesInD1. -/
def storeBatches (oracle : Nat → Option String) (st : StoreSt)
    (batches : List (List VulnRecord)) : StoreSt :=
  batches.foldl (storeLoop oracle) st

/-- Everything observable about one completed call to
storeVulnerabilitiesInD1: the new vulnerabilities table, the new
fetch_metadata row, the list of (fetchTime, nextStartIndex) arguments of the
updateFetchMetadata calls it performed, the counters, the errorDetails, and
the value the function returns to its caller (JavaScript functions with no
return statement return undefined). -/
structure StoreOut where
  table : List VulnRow
  meta : Option Checkpoint
  metaWrites : List (String × Int)
  successCount : Nat
  errorCount : Nat
  errorDetails : List (JsVal × String)
  ret : JsVal
deriving Repr

/-- storeVulnerabilitiesInD1: an empty (or missing) input returns early with
no writes at all; otherwise every record is attempted in slices of 200, and
the call ends with updateFetchMetadata(d1, "nvd", now, successCount). -/
def storeVulnerabilitiesInD1 (table : List VulnRow) (meta : Option Checkpoint)
    (vulns : List VulnRecord) (oracle : Nat → Option String) (now : String) :
    StoreOut :=
  if vulns.isEmpty then
    { table := table, meta := meta, metaWrites := []
      successCount := 0, errorCount := 0, errorDetails := [], ret := .undef }
  else
    let st := storeBatches oracle
      { table := table, successCount := 0, errorCount := 0
        errorDetails := [], attemptIdx := 0 }
      (slices200 vulns.length vulns)
    { table := st.table
      meta := updateFetchMetadata meta now (st.successCount : Int)
      metaWrites := [(now, (st.successCount : Int))]
      successCount := st.successCount
      errorCount := st.errorCount
      errorDetails := st.errorDetails
      ret := .undef }

/-- The parsed NVD response body, as the fields the worker reads from it
(each may be absent, in which case the worker's || fallbacks apply). -/
structure NvdResponse where
  totalResults : Option Int
  resultsPerPage : Option Int
  vulnerabilities : Option (List JsVal)

/-- responseData.field || 0. -/
def orZero : Option Int → Int
  | none => 0
  | some n => n

/-- What the single network round trip to the NVD API did: the fetch call
threw (network failure), the response was non-2xx (with its body text), the
2xx body failed to parse as JSON (response.json() throws), or a parsed body
came back. -/
inductive Upstream where
  | netFail (msg : String)
  | badStatus (body : String)
  | badJson
  | ok (resp : NvdResponse)

/-- The success summary object built at the end of fetchNvdDataChunk.  The
claim-relevant fields are carried exactly; of the display-only progress
subobject only existingInDb is carried (remainingToFetch, percentComplete and
dateRange are arithmetic/formatting over values already present here), and
totalExecutionTime is omitted as pure wall-clock formatting; the full key
list of the serialized object is given separately by payloadKeys. -/
structure ChunkSummary where
  totalEntries : Int
  processedEntries : Int
  newStartIndex : Int
  hasMore : Bool
  existingInDb : Int
  message : String

/-- The value fetchNvdDataChunk returns: either the early
{ error, nextIndex } object, or the full success summary object. -/
inductive ChunkResult where
  | errorResult (error : String) (nextIndex : Int)
  | success (r : ChunkSummary)

/-- Everything observable about one invocation of fetchNvdDataChunk: the
final fetch_metadata row, the final vulnerabilities table, and either the
returned value or the exception it threw. -/
structure ChunkEnd where
  meta : Option Checkpoint
  vtab : List VulnRow
  outcome : Except JsErr ChunkResult

/-- Count of rows with created_at at or after the window start, modelling
SELECT COUNT(*) FROM vulnerabilities WHERE created_at >= ? (ISO-8601
timestamps compare correctly as strings). -/
def countCreatedSince (t : List VulnRow) (lastModStart : String) : Int :=
  ((t.filter fun row => lastModStart ≤ row.created_at).length : Int)

/-- The summary message string of the result object.  The percentage shown in
the JavaScript is floating-point formatted with toFixed(2); it is rendered
here with integer division, which none of the verified properties inspect. -/
def chunkMessage (hasMore : Bool) (processed : Int) (totalEntries : Int)
    (newStartIndex : Int) (existingInDb : Int) : String :=
  if hasMore then
    "Processed " ++ toString processed ++ " entries. Remaining to fetch: " ++
      toString (totalEntries - newStartIndex)
  else
    "All caught up with NVD data. Total entries in DB: " ++ toString existingInDb

/-- fetchNvdDataChunk: one chunked invocation.  The D1 state (fetch_metadata
row and vulnerabilities table) is passed in and returned; the upstream round
trip is an input; per-insert D1 outcomes come from the oracle; now is the
invocation's new Date().toISOString() and lastModStart the 30-day window
start it computes.  An Except.error outcome models an exception propagating
out of the function (caught by the HTTP handler). -/
def fetchNvdDataChunk (meta : Option Checkpoint) (vtab : List VulnRow)
    (up : Upstream) (oracle : Nat → Option String) (now lastModStart : String) :
    ChunkEnd :=
  let metadata := getFetchMetadata meta
  let next_start_index : Int :=
    match metadata with
    | none => 0
    | some c => c.next_start_index
  match up with
  | .netFail msg =>
      { meta := meta, vtab := vtab
        outcome := .ok (.errorResult ("NVD API request failed: " ++ msg) next_start_index) }
  | .badStatus body =>
      { meta := meta, vtab := vtab
        outcome := .ok (.errorResult ("NVD API error: " ++ body) next_start_index) }
  | .badJson =>
      { meta := meta, vtab := vtab, outcome := .error .jsonParse }
  | .ok resp =>
      let totalEntries := orZero resp.totalResults
      let vulnerabilities := resp.vulnerabilities.getD []
      match processAll vulnerabilities now with
      | .error e => { meta := meta, vtab := vtab, outcome := .error e }
      | .ok processedData =>
          let st := storeVulnerabilitiesInD1 vtab meta processedData oracle now
          let newStartIndex := next_start_index + orZero resp.resultsPerPage
          let hasMore := decide (newStartIndex < totalEntries)
          let meta2 := updateFetchMetadata st.meta now newStartIndex
          let existingInDb := countCreatedSince st.table lastModStart
          { meta := meta2
            vtab := st.table
            outcome := .ok (.success {
              totalEntries := totalEntries
              processedEntries := (processedData.length : Int)
              newStartIndex := newStartIndex
              hasMore := hasMore
              existingInDb := existingInDb
              message := chunkMessage hasMore (processedData.length : Int)
                totalEntries newStartIndex existingInDb }) }

/-- The response body of the worker's HTTP entry point: either
JSON.stringify of the value fetchNvdDataChunk returned, or a plain text
body. -/
inductive RespBody where
  | jsonResult (r : ChunkResult)
  | text (s : String)

/-- An HTTP response as the worker constructs it. -/
structure HttpResponse where
  status : Nat
  body : RespBody

/-- The key list of JSON.stringify of the value fetchNvdDataChunk returns, in
object-literal order.  The progress field is itself an object
{ existingInDb, remainingToFetch, percentComplete, dateRange }. -/
def payloadKeys : ChunkResult → List String
  | .errorResult _ _ => ["error", "nextIndex"]
  | .success _ =>
      ["totalEntries", "processedEntries", "newStartIndex", "hasMore",
       "progress", "message", "totalExecutionTime"]

/-- The message carried by a thrown exception, as interpolated into the
500 response body. -/
def errMessage : JsErr → String
  | .typeError msg => msg
  | .jsonParse => "Unexpected token in JSON"

/-- The fetch handler of the worker's default export: routes /fetchnvd to
fetchNvdDataChunk and wraps its returned value in a 200 JSON response, maps
any other path to 404, and maps an exception escaping the route handler to a
500 with the error message. -/
def workerFetch (path : String) (meta : Option Checkpoint) (vtab : List VulnRow)
    (up : Upstream) (oracle : Nat → Option String) (now lastModStart : String) :
    HttpResponse :=
  if path = "/fetchnvd" then
    match (fetchNvdDataChunk meta vtab up oracle now lastModStart).outcome with
    | .ok r => { status := 200, body := .jsonResult r }
    | .error e => { status := 500, body := .text ("Error: " ++ errMessage e) }
  else
    { status := 404, body := .text "Not Found" }

/-- What a single flush run of sendToLogQueue did: the entries left in the
module-level logQueue buffer when the run exited, one (batchSize,
attemptCount) pair per batch taken from the queue in order, and the final
subrequestsMade counter (which in the JavaScript counts only successful
sendBatch calls). -/
structure FlushOut where
  remaining : List String
  batches : List (Nat × Nat)
  subrequestsMade : Nat
deriving Repr, DecidableEq

/-- The inner retry loop for one batch: sendBatch attempts are made while
retries < MAX_RETRIES (3), stopping at the first success; the oracle says
whether the outbound call with a given global index succeeds.  Returns how
many attempts were made (at most 3) and whether one of them succeeded.
The exponential-backoff sleep between failures has no observable effect
here and is not modelled. -/
def attemptBatch (oracle : Nat → Bool) (base : Nat) : Nat × Bool :=
  if oracle base then (1, true)
  else if oracle (base + 1) then (2, true)
  else (3, oracle (base + 2))

/-- The while (logQueue.length > 0) loop of sendToLogQueue: exits when the
queue is empty or subrequestsMade has reached MAX_SUBREQUESTS (45); otherwise
splices a batch of up to BATCH_SIZE (50) entries off the queue and runs the
retry loop on it.  Each iteration consumes at least one entry, so the fuel —
initialized to the queue length — is never exhausted; the fuel-0 branch
mirrors the loop exit, leaving the queue as is. -/
def flushAux (oracle : Nat → Bool) :
    Nat → List String → Nat → Nat → List (Nat × Nat) → FlushOut
  | _, [], subreq, _, acc =>
      { remaining := [], batches := acc, subrequestsMade := subreq }
  | 0, queue, subreq, _, acc =>
      { remaining := queue, batches := acc, subrequestsMade := subreq }
  | fuel + 1, queue, subreq, callBase, acc =>
      if 45 ≤ subreq then
        { remaining := queue, batches := acc, subrequestsMade := subreq }
      else
        let batch := queue.take 50
        let rest := queue.drop 50
        let res := attemptBatch oracle callBase
        flushAux oracle fuel rest (if res.2 then subreq + 1 else subreq)
          (callBase + res.1) (acc ++ [(batch.length, res.1)])

/-- sendToLogQueue: pushes the entry onto the module-level buffer, then — if
no flush is already in progress (the isSendingLogs flag) — runs the flush
loop over the buffer.  Entry timestamps and batch IDs decorate the payload
only and are not modelled. -/
def sendToLogQueue (queue : List String) (entry : String) (isSendingLogs : Bool)
    (oracle : Nat → Bool) : FlushOut :=
  let queue1 := queue ++ [entry]
  if isSendingLogs then
    { remaining := queue1, batches := [], subrequestsMade := 0 }
  else
    flushAux oracle queue1.length queue1 0 0 []

/-- Total number of outbound sendBatch calls made during a flush run. -/
def totalCalls (out : FlushOut) : Nat :=
  (out.batches.map Prod.snd).sum

/-- last_fetch_time of the fetch_metadata row, none when the row is absent
or the column is NULL. -/
def lastFetchOf (m : Option Checkpoint) : Option String :=
  m.bind Checkpoint.last_fetch_time

/-- next_start_index of the fetch_metadata row, none when the row is absent. -/
def nextStartOf (m : Option Checkpoint) : Option Int :=
  m.map Checkpoint.next_start_index

/-- items_fetched of the fetch_metadata row, none when the row is absent. -/
def itemsFetchedOf (m : Option Checkpoint) : Option Int :=
  m.map Checkpoint.items_fetched

/-- The resume offset the controller reads from the row: the destructuring
const .. next_start_index = 0 .. = metadata or default. -/
def nsiOf (m : Option Checkpoint) : Int :=
  match m with
  | none => 0
  | some c => c.next_start_index

/-- items_fetched read off the row, 0 when the row is absent. -/
def itemsOf (m : Option Checkpoint) : Int :=
  match m with
  | none => 0
  | some c => c.items_fetched

/-- The hasMore field of a successful invocation's summary, none when the
invocation threw or returned the early error object. -/
def outcomeHasMore (e : ChunkEnd) : Option Bool :=
  match e.outcome with
  | .ok (.success r) => some r.hasMore
  | _ => none

/-- The key list of the JSON payload of a response, none for text bodies. -/
def respKeys (r : HttpResponse) : Option (List String) :=
  match r.body with
  | .jsonResult c => some (payloadKeys c)
  | .text _ => none

/-- A D1 oracle under which every insert and metadata write succeeds. -/
def okOracle : Nat → Option String := fun _ => none

/-- A minimal well-formed raw NVD item carrying only the natural id. -/
def validItem (id : String) : JsVal :=
  .obj [("cve", .obj [("id", .str id)])]

theorem lastFetchOf_update (m : Option Checkpoint) (f : String) (n : Int) :
    lastFetchOf (updateFetchMetadata m f n) = some f := by
  cases m <;> rfl

theorem nextStartOf_update (m : Option Checkpoint) (f : String) (n : Int) :
    nextStartOf (updateFetchMetadata m f n) = some n := by
  cases m <;> rfl

theorem itemsOf_update (m : Option Checkpoint) (f : String) (n : Int) :
    itemsOf (updateFetchMetadata m f n) = itemsOf m := by
  cases m <;> simp [updateFetchMetadata, itemsOf]

theorem itemsFetchedOf_update (m : Option Checkpoint) (f : String) (n : Int) :
    itemsFetchedOf (updateFetchMetadata m f n) = some (itemsOf m) := by
  cases m <;> simp [updateFetchMetadata, itemsFetchedOf, itemsOf]

theorem itemsOf_store (table : List VulnRow) (m : Option Checkpoint)
    (vulns : List VulnRecord) (oracle : Nat → Option String) (now : String) :
    itemsOf (storeVulnerabilitiesInD1 table m vulns oracle now).meta = itemsOf m := by
  unfold storeVulnerabilitiesInD1
  split
  · rfl
  · exact itemsOf_update ..

/-- A checkpoint row as it stands before the sample invocations below. -/
def cpOld : Checkpoint where
  last_fetch_time := some "2024-01-01T00:00:00Z"
  last_success_time := some "2024-01-01T00:00:00Z"
  items_fetched := 7
  next_start_index := 0

/-- An NVD page with five total results, two of which are returned. -/
def resp1 : NvdResponse where
  totalResults := some 5
  resultsPerPage := some 2
  vulnerabilities := some [validItem "CVE-A", validItem "CVE-B"]

/-- The fresh-source single-page upstream response of the specification
scenario: totalResults 3, resultsPerPage 2000, three valid items. -/
def freshResp : NvdResponse where
  totalResults := some 3
  resultsPerPage := some 2000
  vulnerabilities := some [validItem "CVE-A", validItem "CVE-B", validItem "CVE-C"]

/-- C4: if the upstream page request fails — the fetch call throws, or the
response is non-2xx — fetchNvdDataChunk returns the early error object
carrying the unchanged resume offset, and neither the fetch_metadata row nor
the vulnerabilities table is written. -/
theorem c4_upstream_failure_preserves_checkpoint :
    ∀ (meta : Option Checkpoint) (vtab : List VulnRow)
      (oracle : Nat → Option String) (now lms msg body : String),
      ((fetchNvdDataChunk meta vtab (.netFail msg) oracle now lms).meta = meta
        ∧ (fetchNvdDataChunk meta vtab (.netFail msg) oracle now lms).vtab = vtab
        ∧ (fetchNvdDataChunk meta vtab (.netFail msg) oracle now lms).outcome =
            .ok (.errorResult ("NVD API request failed: " ++ msg) (nsiOf meta)))
      ∧ ((fetchNvdDataChunk meta vtab (.badStatus body) oracle now lms).meta = meta
        ∧ (fetchNvdDataChunk meta vtab (.badStatus body) oracle now lms).vtab = vtab
        ∧ (fetchNvdDataChunk meta vtab (.badStatus body) oracle now lms).outcome =
            .ok (.errorResult ("NVD API error: " ++ body) (nsiOf meta))) := by
  intro meta vtab oracle now lms msg body
  cases meta <;> exact ⟨⟨rfl, rfl, rfl⟩, rfl, rfl, rfl⟩

/-- C2: evaluating the code at the specification's fresh-source single-page
scenario (no checkpoint; upstream returns totalResults 3, resultsPerPage
2000, three valid items): the cycle is done (hasMore is false) and all three
records are in the sink, but the stored checkpoint ends with
next_start_index 2000 — the offset is never reset to 0. -/
theorem c2_fresh_single_page_offset_not_reset :
    (fetchNvdDataChunk none [] (.ok freshResp) okOracle "T1" "T0").meta =
      some { last_fetch_time := some "T1", last_success_time := some "T1",
             items_fetched := 0, next_start_index := 2000 }
    ∧ outcomeHasMore (fetchNvdDataChunk none [] (.ok freshResp) okOracle "T1" "T0") =
        some false
    ∧ (fetchNvdDataChunk none [] (.ok freshResp) okOracle "T1" "T0").vtab.length = 3
    ∧ (2000 : Int) ≠ 0 := by
  exact ⟨rfl, rfl, rfl, by decide⟩

/-- C1 counterexample: a successful mid-cycle page (hasMore is true) where
the checkpoint's last_fetch_time changes from its prior value to the
invocation's time, contradicting the claim that it is unchanged whenever the
feed is not exhausted. -/
theorem c1_counterexample :
    outcomeHasMore
      (fetchNvdDataChunk (some cpOld) [] (.ok resp1) okOracle
        "2024-01-02T00:00:00Z" "2023-12-03T00:00:00Z") = some true
    ∧ lastFetchOf (some cpOld) = some "2024-01-01T00:00:00Z"
    ∧ lastFetchOf
        (fetchNvdDataChunk (some cpOld) [] (.ok resp1) okOracle
          "2024-01-02T00:00:00Z" "2023-12-03T00:00:00Z").meta =
        some "2024-01-02T00:00:00Z"
    ∧ ("2024-01-02T00:00:00Z" : String) ≠ "2024-01-01T00:00:00Z" := by
  exact ⟨rfl, rfl, rfl, by decide⟩

/-- C1 (amended): after every invocation that fetches and stores a page
successfully, the checkpoint's last_fetch_time equals the invocation's
current time — the window end is overwritten on every page, whether or not
the feed is exhausted, not only on full cycle completion. -/
theorem c1_window_written_every_page
    (meta : Option Checkpoint) (vtab : List VulnRow) (resp : NvdResponse)
    (oracle : Nat → Option String) (now lms : String) {r : ChunkSummary}
    (h : (fetchNvdDataChunk meta vtab (.ok resp) oracle now lms).outcome =
      .ok (.success r)) :
    lastFetchOf (fetchNvdDataChunk meta vtab (.ok resp) oracle now lms).meta =
      some now := by
  unfold fetchNvdDataChunk at h ⊢
  cases hp : processAll (resp.vulnerabilities.getD []) now with
  | error e => simp [hp] at h
  | ok processedData => simp [hp, lastFetchOf_update]

/-- C1 witness: the amended statement instantiated at the concrete mid-cycle
page of the counterexample. -/
theorem c1_witness :
    lastFetchOf
      (fetchNvdDataChunk (some cpOld) [] (.ok resp1) okOracle
        "2024-01-02T00:00:00Z" "2023-12-03T00:00:00Z").meta =
      some "2024-01-02T00:00:00Z" :=
  c1_window_written_every_page (some cpOld) [] resp1 okOracle
    "2024-01-02T00:00:00Z" "2023-12-03T00:00:00Z" rfl

/-- A checkpoint mid-cycle at offset 10 with 7 items accumulated. -/
def cp3 : Checkpoint where
  last_fetch_time := some "2024-01-01T00:00:00Z"
  last_success_time := some "2024-01-01T00:00:00Z"
  items_fetched := 7
  next_start_index := 10

/-- An NVD page whose resultsPerPage field (5) differs from the number of
records actually returned (2) — the NVD API echoes the requested page size
here, not the returned count. -/
def resp3 : NvdResponse where
  totalResults := some 100
  resultsPerPage := some 5
  vulnerabilities := some [validItem "CVE-A", validItem "CVE-B"]

/-- C3 counterexample: a successfully stored page whose returned_count is 2
and success_count is 2, starting from offset 10 with items_fetched 7.  The
claim predicts next_offset 12 and items_fetched 9; the code stores
next_start_index 15 (offset plus the response's resultsPerPage field) and
leaves items_fetched at 7 (the metadata statement always binds 0 for the
excluded items_fetched). -/
theorem c3_counterexample :
    nextStartOf
      (fetchNvdDataChunk (some cp3) [] (.ok resp3) okOracle "T1" "T0").meta =
      some 15
    ∧ some (15 : Int) ≠ some ((10 : Int) + 2)
    ∧ itemsFetchedOf
        (fetchNvdDataChunk (some cp3) [] (.ok resp3) okOracle "T1" "T0").meta =
        some 7
    ∧ some (7 : Int) ≠ some ((7 : Int) + 2) := by
  exact ⟨rfl, by decide, rfl, by decide⟩

/-- C3 (amended): after every successfully fetched and stored page, the
persisted checkpoint has next_start_index equal to the previous offset plus
the response's resultsPerPage field (not the returned record count), and
items_fetched unchanged from its previous value (the statement accumulates
by a hard-coded 0, never by success_count). -/
theorem c3_offset_uses_results_per_page
    (meta : Option Checkpoint) (vtab : List VulnRow) (resp : NvdResponse)
    (oracle : Nat → Option String) (now lms : String) {r : ChunkSummary}
    (h : (fetchNvdDataChunk meta vtab (.ok resp) oracle now lms).outcome =
      .ok (.success r)) :
    nextStartOf (fetchNvdDataChunk meta vtab (.ok resp) oracle now lms).meta =
      some (nsiOf meta + orZero resp.resultsPerPage)
    ∧ itemsFetchedOf (fetchNvdDataChunk meta vtab (.ok resp) oracle now lms).meta =
        some (itemsOf meta) := by
  unfold fetchNvdDataChunk at h ⊢
  cases hp : processAll (resp.vulnerabilities.getD []) now with
  | error e => simp [hp] at h
  | ok processedData =>
      constructor
      · cases meta <;> simp [hp, getFetchMetadata, nextStartOf_update, nsiOf]
      · simp [hp, getFetchMetadata, itemsFetchedOf_update, itemsOf_store]

/-- C3 witness: the amended statement instantiated at the concrete page of
the counterexample. -/
theorem c3_witness :
    nextStartOf
      (fetchNvdDataChunk (some cp3) [] (.ok resp3) okOracle "T1" "T0").meta =
      some (nsiOf (some cp3) + orZero resp3.resultsPerPage)
    ∧ itemsFetchedOf
        (fetchNvdDataChunk (some cp3) [] (.ok resp3) okOracle "T1" "T0").meta =
        some (itemsOf (some cp3)) :=
  c3_offset_uses_results_per_page (some cp3) [] resp3 okOracle "T1" "T0" rfl

/-- A checkpoint used to observe whether the store step writes metadata. -/
def cp10 : Checkpoint where
  last_fetch_time := some "OLD"
  last_success_time := some "OLD"
  items_fetched := 5
  next_start_index := 7

/-- C10 counterexample: a call to storeVulnerabilitiesInD1 with an empty
record list completes (returns) without calling updateFetchMetadata at all —
the metadata write list is empty and the row is untouched, although a write
would have been observable. -/
theorem c10_counterexample :
    (storeVulnerabilitiesInD1 [] (some cp10) [] okOracle "T1").metaWrites = []
    ∧ (storeVulnerabilitiesInD1 [] (some cp10) [] okOracle "T1").meta = some cp10
    ∧ updateFetchMetadata (some cp10) "T1" 0 ≠ some cp10 := by
  exact ⟨rfl, rfl, by decide⟩

/-- C10 (amended): every completed call to storeVulnerabilitiesInD1 with a
nonempty record list ends with exactly one updateFetchMetadata call, passing
the batch's successCount as the next_start_index argument, so the
checkpoint's next_start_index is overwritten with the count of successfully
inserted records and its last_fetch_time with the store time; in the
controller's success path this happens before fetchNvdDataChunk overwrites
the row again with the page offset. -/
theorem c10_store_overwrites_offset_with_success_count :
    (∀ (table : List VulnRow) (meta : Option Checkpoint)
       (vulns : List VulnRecord) (oracle : Nat → Option String) (now : String),
       vulns ≠ [] →
       (storeVulnerabilitiesInD1 table meta vulns oracle now).metaWrites =
         [(now, ((storeVulnerabilitiesInD1 table meta vulns oracle now).successCount : Int))]
       ∧ (storeVulnerabilitiesInD1 table meta vulns oracle now).meta =
           updateFetchMetadata meta now
             ((storeVulnerabilitiesInD1 table meta vulns oracle now).successCount : Int)
       ∧ nextStartOf (storeVulnerabilitiesInD1 table meta vulns oracle now).meta =
           some ((storeVulnerabilitiesInD1 table meta vulns oracle now).successCount : Int)
       ∧ lastFetchOf (storeVulnerabilitiesInD1 table meta vulns oracle now).meta =
           some now)
    ∧ (∀ (meta : Option Checkpoint) (vtab : List VulnRow) (resp : NvdResponse)
         (oracle : Nat → Option String) (now lms : String)
         (processedData : List VulnRecord),
         processAll (resp.vulnerabilities.getD []) now = .ok processedData →
         (fetchNvdDataChunk meta vtab (.ok resp) oracle now lms).meta =
           updateFetchMetadata
             (storeVulnerabilitiesInD1 vtab meta processedData oracle now).meta
             now (nsiOf meta + orZero resp.resultsPerPage)) := by
  constructor
  · intro table meta vulns oracle now hne
    have he : vulns.isEmpty = false := by
      cases vulns with
      | nil => exact absurd rfl hne
      | cons a l => rfl
    refine ⟨?_, ?_, ?_, ?_⟩ <;>
      simp [storeVulnerabilitiesInD1, he, nextStartOf_update, lastFetchOf_update]
  · intro meta vtab resp oracle now lms processedData hp
    unfold fetchNvdDataChunk
    cases meta <;> simp [hp, getFetchMetadata, nsiOf]

/-- C10 witness: the amended statement instantiated at a concrete nonempty
batch and at the concrete success-path invocation of the counterexamples
above. -/
theorem c10_witness :
    (storeVulnerabilitiesInD1 [] (some cp10)
        [{ cveId := .str "CVE-A", link := "", description := .str "",
           source := .str "NVD", published := .null, lastModified := .null,
           baseScore := .null, baseSeverity := .null, vectorString := .null,
           cwe := .null, refUrls := .str "", fetched_at := "T1" }]
        okOracle "T1").metaWrites =
      [("T1", ((storeVulnerabilitiesInD1 [] (some cp10)
        [{ cveId := .str "CVE-A", link := "", description := .str "",
           source := .str "NVD", published := .null, lastModified := .null,
           baseScore := .null, baseSeverity := .null, vectorString := .null,
           cwe := .null, refUrls := .str "", fetched_at := "T1" }]
        okOracle "T1").successCount : Int))] :=
  ((c10_store_overwrites_offset_with_success_count.1 [] (some cp10) _ okOracle "T1"
      (by simp)).1)

/-- C5 counterexample: an upstream network failure is surfaced by the HTTP
entry point as a 200 response whose JSON payload has the keys
{ error, nextIndex } — not as a 500 — and a successful invocation's 200
payload has seven keys including newStartIndex, not exactly the claimed four
fields { totalEntries, processedEntries, newOffset, hasMore }. -/
theorem c5_counterexample :
    (workerFetch "/fetchnvd" (some cpOld) [] (.netFail "boom") okOracle "T1" "T0").status
      = 200
    ∧ (200 : Nat) ≠ 500
    ∧ respKeys (workerFetch "/fetchnvd" (some cpOld) [] (.netFail "boom") okOracle "T1" "T0")
        = some ["error", "nextIndex"]
    ∧ respKeys (workerFetch "/fetchnvd" none [] (.ok freshResp) okOracle "T1" "T0")
        = some ["totalEntries", "processedEntries", "newStartIndex", "hasMore",
                "progress", "message", "totalExecutionTime"]
    ∧ (["totalEntries", "processedEntries", "newStartIndex", "hasMore",
        "progress", "message", "totalExecutionTime"] : List String)
        ≠ ["totalEntries", "processedEntries", "newOffset", "hasMore"] := by
  exact ⟨rfl, by decide, rfl, rfl, by decide⟩

/-- C5 (amended): the entry point returns 404 for any path other than
/fetchnvd; a successful invocation returns 200 with the seven-key summary
payload { totalEntries, processedEntries, newStartIndex, hasMore, progress,
message, totalExecutionTime }; an upstream network failure or non-2xx
response also returns 200, carrying the { error, nextIndex } payload; only a
thrown exception (for example an unparseable 2xx body) yields a 500 with an
error message. -/
theorem c5_response_contract :
    ∀ (meta : Option Checkpoint) (vtab : List VulnRow)
      (oracle : Nat → Option String) (now lms : String),
      (∀ (path : String) (up : Upstream), path ≠ "/fetchnvd" →
        workerFetch path meta vtab up oracle now lms =
          { status := 404, body := .text "Not Found" })
      ∧ (∀ msg, workerFetch "/fetchnvd" meta vtab (.netFail msg) oracle now lms =
          { status := 200, body := .jsonResult
              (.errorResult ("NVD API request failed: " ++ msg) (nsiOf meta)) })
      ∧ (∀ body, workerFetch "/fetchnvd" meta vtab (.badStatus body) oracle now lms =
          { status := 200, body := .jsonResult
              (.errorResult ("NVD API error: " ++ body) (nsiOf meta)) })
      ∧ workerFetch "/fetchnvd" meta vtab .badJson oracle now lms =
          { status := 500, body := .text ("Error: " ++ errMessage .jsonParse) }
      ∧ (∀ (resp : NvdResponse) (r : ChunkSummary),
          (fetchNvdDataChunk meta vtab (.ok resp) oracle now lms).outcome =
            .ok (.success r) →
          workerFetch "/fetchnvd" meta vtab (.ok resp) oracle now lms =
            { status := 200, body := .jsonResult (.success r) }
          ∧ payloadKeys (.success r) =
              ["totalEntries", "processedEntries", "newStartIndex", "hasMore",
               "progress", "message", "totalExecutionTime"]) := by
  intro meta vtab oracle now lms
  refine ⟨?_, ?_, ?_, ?_, ?_⟩
  · intro path up hne
    simp [workerFetch, hne]
  · intro msg
    cases meta <;> simp [workerFetch, fetchNvdDataChunk, getFetchMetadata, nsiOf]
  · intro body
    cases meta <;> simp [workerFetch, fetchNvdDataChunk, getFetchMetadata, nsiOf]
  · simp [workerFetch, fetchNvdDataChunk]
  · intro resp r h
    refine ⟨?_, rfl⟩
    simp [workerFetch, h]

/-- C5 witness: the amended contract instantiated at concrete invocations —
the unknown route, the network failure and the successful fresh-source
fetch of the counterexample. -/
theorem c5_witness :
    workerFetch "/other" (some cpOld) [] (.netFail "boom") okOracle "T1" "T0" =
      { status := 404, body := .text "Not Found" }
    ∧ workerFetch "/fetchnvd" (some cpOld) [] (.netFail "boom") okOracle "T1" "T0" =
        { status := 200, body := .jsonResult
            (.errorResult "NVD API request failed: boom" (nsiOf (some cpOld))) } := by
  constructor
  · exact (c5_response_contract (some cpOld) [] okOracle "T1" "T0").1 "/other"
      (.netFail "boom") (by decide)
  · have h := (c5_response_contract (some cpOld) [] okOracle "T1" "T0").2.1 "boom"
    simpa using h

theorem storeLoop_append (oracle : Nat → Option String) (st : StoreSt)
    (l1 l2 : List VulnRecord) :
    storeLoop oracle st (l1 ++ l2) = storeLoop oracle (storeLoop oracle st l1) l2 := by
  simp [storeLoop, List.foldl_append]

theorem storeBatches_slices (oracle : Nat → Option String) :
    ∀ (fuel : Nat) (l : List VulnRecord) (st : StoreSt), l.length ≤ fuel →
    storeBatches oracle st (slices200 fuel l) = storeLoop oracle st l := by
  intro fuel
  induction fuel with
  | zero =>
      intro l st hl
      have : l = [] := List.eq_nil_of_length_eq_zero (Nat.le_zero.mp hl)
      subst this
      rfl
  | succ fuel ih =>
      intro l st hl
      cases l with
      | nil => rfl
      | cons a l' =>
          show storeBatches oracle st
            ((a :: l').take 200 :: slices200 fuel ((a :: l').drop 200)) = _
          have hlen : ((a :: l').drop 200).length ≤ fuel := by
            simp only [List.length_drop]
            omega
          calc storeBatches oracle st
                ((a :: l').take 200 :: slices200 fuel ((a :: l').drop 200))
              = storeBatches oracle (storeLoop oracle st ((a :: l').take 200))
                  (slices200 fuel ((a :: l').drop 200)) := rfl
            _ = storeLoop oracle (storeLoop oracle st ((a :: l').take 200))
                  ((a :: l').drop 200) := ih _ _ hlen
            _ = storeLoop oracle st ((a :: l').take 200 ++ (a :: l').drop 200) :=
                  (storeLoop_append ..).symm
            _ = storeLoop oracle st (a :: l') := by rw [List.take_append_drop]

theorem storeLoop_counts (oracle : Nat → Option String) :
    ∀ (l : List VulnRecord) (st : StoreSt),
    (storeLoop oracle st l).successCount + (storeLoop oracle st l).errorCount =
      st.successCount + st.errorCount +
        (l.filter fun v => truthy v.cveId).length := by
  intro l
  induction l with
  | nil => intro st; simp [storeLoop]
  | cons a l' ih =>
      intro st
      show (storeLoop oracle (storeStep oracle st a) l').successCount +
        (storeLoop oracle (storeStep oracle st a) l').errorCount = _
      rw [ih]
      unfold storeStep
      cases ht : truthy a.cveId with
      | false => simp [ht]
      | true =>
          cases ho : oracle st.attemptIdx <;> simp [ht, ho] <;> omega

theorem storeLoop_details (oracle : Nat → Option String) :
    ∀ (l : List VulnRecord) (st : StoreSt),
    (storeLoop oracle st l).errorDetails.length + st.errorCount =
      (storeLoop oracle st l).errorCount + st.errorDetails.length := by
  intro l
  induction l with
  | nil => intro st; simp [storeLoop, Nat.add_comm]
  | cons a l' ih =>
      intro st
      show (storeLoop oracle (storeStep oracle st a) l').errorDetails.length + _ =
        (storeLoop oracle (storeStep oracle st a) l').errorCount + _
      have h := ih (storeStep oracle st a)
      unfold storeStep at h ⊢
      cases ht : truthy a.cveId with
      | false => simp [ht] at h ⊢; omega
      | true =>
          cases ho : oracle st.attemptIdx <;> simp [ht, ho] at h ⊢ <;> omega

theorem storeLoop_details_mem (oracle : Nat → Option String) :
    ∀ (l : List VulnRecord) (st : StoreSt),
    ∀ p ∈ (storeLoop oracle st l).errorDetails,
      p ∈ st.errorDetails ∨ p.1 ∈ l.map VulnRecord.cveId := by
  intro l
  induction l with
  | nil => intro st p hp; exact Or.inl hp
  | cons a l' ih =>
      intro st p hp
      have h := ih (storeStep oracle st a) p hp
      cases h with
      | inr h => exact Or.inr (by simp [h])
      | inl h =>
          unfold storeStep at h
          cases ht : truthy a.cveId with
          | false => rw [ht] at h; simp at h; exact Or.inl h
          | true =>
              rw [ht] at h
              cases ho : oracle st.attemptIdx with
              | none => rw [ho] at h; exact Or.inl h
              | some msg =>
                  rw [ho] at h
                  simp at h
                  cases h with
                  | inl h => exact Or.inl h
                  | inr h => exact Or.inr (by subst h; simp)

/-- A canonical record for small concrete batches. -/
def sampleRecord (id : String) (t : String) : VulnRecord where
  cveId := .str id
  link := ""
  description := .str ""
  source := .str "NVD"
  published := .null
  lastModified := .null
  baseScore := .null
  baseSeverity := .null
  vectorString := .null
  cwe := .null
  refUrls := .str ""
  fetched_at := t

/-- A D1 oracle whose first insert attempt throws and all later ones
succeed. -/
def failFirstOracle : Nat → Option String :=
  fun n => if n = 0 then some "SQLITE_ERROR" else none

/-- C8 counterexample: a two-record batch whose first insert throws.  The
error is caught and counted, the second record is still attempted and
stored, the cycle continues — but the per-item failures are only accumulated
in the local errorDetails and logged: the function's return value is
undefined, indistinguishable from the return value of the failure-free run,
so nothing is returned to the caller. -/
theorem c8_counterexample :
    (storeVulnerabilitiesInD1 [] (some cp10)
        [sampleRecord "CVE-A" "T1", sampleRecord "CVE-B" "T1"]
        failFirstOracle "T1").errorCount = 1
    ∧ (storeVulnerabilitiesInD1 [] (some cp10)
        [sampleRecord "CVE-A" "T1", sampleRecord "CVE-B" "T1"]
        failFirstOracle "T1").successCount = 1
    ∧ (storeVulnerabilitiesInD1 [] (some cp10)
        [sampleRecord "CVE-A" "T1", sampleRecord "CVE-B" "T1"]
        failFirstOracle "T1").errorDetails = [(.str "CVE-A", "SQLITE_ERROR")]
    ∧ (storeVulnerabilitiesInD1 [] (some cp10)
        [sampleRecord "CVE-A" "T1", sampleRecord "CVE-B" "T1"]
        failFirstOracle "T1").ret = JsVal.undef
    ∧ (storeVulnerabilitiesInD1 [] (some cp10)
        [sampleRecord "CVE-A" "T1", sampleRecord "CVE-B" "T1"]
        failFirstOracle "T1").ret =
      (storeVulnerabilitiesInD1 [] (some cp10)
        [sampleRecord "CVE-A" "T1", sampleRecord "CVE-B" "T1"]
        okOracle "T1").ret := by
  exact ⟨rfl, rfl, rfl, rfl, rfl⟩

/-- C8 (amended): the sink writer never aborts a batch — under any pattern of
per-record D1 failures, every record with a truthy cveId is attempted
(successes and caught errors partition them), each failure is recorded in
errorDetails (natural id and error message) and counted, the call still ends
with its metadata write for a nonempty batch — but the failures are only
logged, not returned: the function's return value is undefined. -/
theorem c8_store_never_aborts :
    ∀ (table : List VulnRow) (meta : Option Checkpoint)
      (vulns : List VulnRecord) (oracle : Nat → Option String) (now : String),
    (storeVulnerabilitiesInD1 table meta vulns oracle now).successCount +
        (storeVulnerabilitiesInD1 table meta vulns oracle now).errorCount =
      (vulns.filter fun v => truthy v.cveId).length
    ∧ (storeVulnerabilitiesInD1 table meta vulns oracle now).errorDetails.length =
        (storeVulnerabilitiesInD1 table meta vulns oracle now).errorCount
    ∧ (∀ p ∈ (storeVulnerabilitiesInD1 table meta vulns oracle now).errorDetails,
        p.1 ∈ vulns.map VulnRecord.cveId)
    ∧ (storeVulnerabilitiesInD1 table meta vulns oracle now).ret = JsVal.undef
    ∧ (vulns ≠ [] →
        (storeVulnerabilitiesInD1 table meta vulns oracle now).metaWrites =
          [(now, ((storeVulnerabilitiesInD1 table meta vulns oracle now).successCount : Int))]) := by
  intro table meta vulns oracle now
  cases vulns with
  | nil => exact ⟨rfl, rfl, by intro p hp; simp [storeVulnerabilitiesInD1] at hp,
      rfl, fun h => absurd rfl h⟩
  | cons a l =>
      have hred : storeBatches oracle
          { table := table, successCount := 0, errorCount := 0,
            errorDetails := [], attemptIdx := 0 }
          (slices200 (a :: l).length (a :: l)) =
          storeLoop oracle
            { table := table, successCount := 0, errorCount := 0,
              errorDetails := [], attemptIdx := 0 } (a :: l) :=
        storeBatches_slices oracle _ _ _ (Nat.le_refl _)
      constructor
      · show (storeVulnerabilitiesInD1 table meta (a :: l) oracle now).successCount + _ = _
        unfold storeVulnerabilitiesInD1
        simp only [List.isEmpty_cons, if_false, Bool.false_eq_true, hred]
        have h := storeLoop_counts oracle (a :: l)
          { table := table, successCount := 0, errorCount := 0,
            errorDetails := [], attemptIdx := 0 }
        simpa using h
      constructor
      · unfold storeVulnerabilitiesInD1
        simp only [List.isEmpty_cons, if_false, Bool.false_eq_true, hred]
        have h := storeLoop_details oracle (a :: l)
          { table := table, successCount := 0, errorCount := 0,
            errorDetails := [], attemptIdx := 0 }
        simpa using h
      constructor
      · intro p hp
        unfold storeVulnerabilitiesInD1 at hp
        simp only [List.isEmpty_cons, if_false, Bool.false_eq_true, hred] at hp
        have h := storeLoop_details_mem oracle (a :: l)
          { table := table, successCount := 0, errorCount := 0,
            errorDetails := [], attemptIdx := 0 } p (by simpa using hp)
        cases h with
        | inl h => simp at h
        | inr h => exact h
      constructor
      · unfold storeVulnerabilitiesInD1
        simp
      · intro _
        unfold storeVulnerabilitiesInD1
        simp

/-- C8 witness: the amended statement instantiated at the concrete two-record
failing batch of the counterexample. -/
theorem c8_witness :
    ((.str "CVE-A", "SQLITE_ERROR") : JsVal × String).1 ∈
      ([sampleRecord "CVE-A" "T1", sampleRecord "CVE-B" "T1"].map VulnRecord.cveId)
    ∧ (storeVulnerabilitiesInD1 [] (some cp10)
        [sampleRecord "CVE-A" "T1", sampleRecord "CVE-B" "T1"]
        failFirstOracle "T1").metaWrites =
      [("T1", ((storeVulnerabilitiesInD1 [] (some cp10)
        [sampleRecord "CVE-A" "T1", sampleRecord "CVE-B" "T1"]
        failFirstOracle "T1").successCount : Int))] := by
  constructor
  · exact (c8_store_never_aborts [] (some cp10)
      [sampleRecord "CVE-A" "T1", sampleRecord "CVE-B" "T1"]
      failFirstOracle "T1").2.2.1 _ (by decide)
  · exact (c8_store_never_aborts [] (some cp10)
      [sampleRecord "CVE-A" "T1", sampleRecord "CVE-B" "T1"]
      failFirstOracle "T1").2.2.2.2 (by simp)

theorem attemptBatch_le (oracle : Nat → Bool) (base : Nat) :
    (attemptBatch oracle base).1 ≤ 3 := by
  unfold attemptBatch
  split
  · exact by omega
  · split
    · exact by omega
    · exact Nat.le_refl 3

theorem flushAux_props (oracle : Nat → Bool) :
    ∀ (fuel : Nat) (queue : List String) (subreq callBase : Nat)
      (acc : List (Nat × Nat)),
    queue.length ≤ fuel → subreq ≤ 45 →
    (∀ b ∈ acc, b.1 ≤ 50 ∧ b.2 ≤ 3) →
    (∀ b ∈ (flushAux oracle fuel queue subreq callBase acc).batches,
        b.1 ≤ 50 ∧ b.2 ≤ 3)
    ∧ (flushAux oracle fuel queue subreq callBase acc).subrequestsMade ≤ 45
    ∧ (flushAux oracle fuel queue subreq callBase acc).remaining <:+ queue
    ∧ ((flushAux oracle fuel queue subreq callBase acc).subrequestsMade < 45 →
        (flushAux oracle fuel queue subreq callBase acc).remaining = []) := by
  intro fuel
  induction fuel with
  | zero =>
      intro queue subreq callBase acc hl hs hacc
      have : queue = [] := List.eq_nil_of_length_eq_zero (Nat.le_zero.mp hl)
      subst this
      exact ⟨hacc, hs, List.nil_suffix, fun _ => rfl⟩
  | succ fuel ih =>
      intro queue subreq callBase acc hl hs hacc
      cases queue with
      | nil => exact ⟨hacc, hs, List.nil_suffix, fun _ => rfl⟩
      | cons a q =>
          have heq : flushAux oracle (fuel + 1) (a :: q) subreq callBase acc =
              (if 45 ≤ subreq then
                { remaining := a :: q, batches := acc, subrequestsMade := subreq }
              else flushAux oracle fuel ((a :: q).drop 50)
                (if (attemptBatch oracle callBase).2 then subreq + 1 else subreq)
                (callBase + (attemptBatch oracle callBase).1)
                (acc ++ [(((a :: q).take 50).length, (attemptBatch oracle callBase).1)])) := rfl
          rw [heq]
          by_cases hcap : 45 ≤ subreq
          · rw [if_pos hcap]
            exact ⟨hacc, hs, List.suffix_refl _,
              fun hlt => absurd hcap (Nat.not_le.mpr hlt)⟩
          · rw [if_neg hcap]
            have hfuel : ((a :: q).drop 50).length ≤ fuel := by
              simp only [List.length_drop]
              have := hl
              simp only [List.length_cons] at this
              omega
            have hsub : (if (attemptBatch oracle callBase).2 then subreq + 1 else subreq) ≤ 45 := by
              split <;> omega
            have hacc2 : ∀ b ∈ acc ++ [((((a :: q).take 50)).length, (attemptBatch oracle callBase).1)],
                b.1 ≤ 50 ∧ b.2 ≤ 3 := by
              intro b hb
              rcases List.mem_append.mp hb with hb | hb
              · exact hacc b hb
              · have hb' : b = (((a :: q).take 50).length, (attemptBatch oracle callBase).1) := by
                  simpa using hb
                subst hb'
                refine ⟨?_, attemptBatch_le oracle callBase⟩
                simp [List.length_take_le]
            have h := ih ((a :: q).drop 50)
              (if (attemptBatch oracle callBase).2 then subreq + 1 else subreq)
              (callBase + (attemptBatch oracle callBase).1)
              (acc ++ [(((a :: q).take 50).length, (attemptBatch oracle callBase).1)])
              hfuel hsub hacc2
            exact ⟨h.1, h.2.1, h.2.2.1.trans (List.drop_suffix 50 (a :: q)), h.2.2.2⟩

/-- An outbound-call oracle under which every sendBatch call fails. -/
def allFail : Nat → Bool := fun _ => false

/-- An outbound-call oracle under which every sendBatch call succeeds. -/
def allOk : Nat → Bool := fun _ => true

set_option maxRecDepth 100000 in
/-- C9 counterexample: with 800 buffered entries and every sendBatch call
failing, one flush run makes 48 outbound sendBatch calls — more than 45,
because subrequestsMade counts only successful calls; and with 2251 buffered
entries and every call succeeding, the run stops at the 45-call cap leaving
one entry in the module-level buffer — retained for a later flush, not
dropped. -/
theorem c9_counterexample :
    totalCalls (sendToLogQueue (List.replicate 799 "x") "x" false allFail) = 48
    ∧ 45 < 48
    ∧ (sendToLogQueue (List.replicate 2250 "x") "x" false allOk).subrequestsMade = 45
    ∧ (sendToLogQueue (List.replicate 2250 "x") "x" false allOk).remaining = ["x"]
    ∧ (["x"] : List String) ≠ [] := by
  exact ⟨rfl, by decide, rfl, rfl, by decide⟩

/-- C9 (amended): in any single flush run of sendToLogQueue, each batch holds
at most 50 entries and is attempted at most 3 times (MAX_RETRIES) with
backoff; at most 45 sendBatch calls succeed per run (the subrequest counter
only counts successes, so the total number of outbound calls can exceed 45);
and once the cap is reached the remaining buffered entries are left in the
module-level queue — a suffix of the buffer — for a later flush rather than
being dropped, while a run that ends below the cap has drained the buffer. -/
theorem c9_flush_contract :
    ∀ (queue : List String) (entry : String) (oracle : Nat → Bool),
    (∀ b ∈ (sendToLogQueue queue entry false oracle).batches, b.1 ≤ 50 ∧ b.2 ≤ 3)
    ∧ (sendToLogQueue queue entry false oracle).subrequestsMade ≤ 45
    ∧ (sendToLogQueue queue entry false oracle).remaining <:+ (queue ++ [entry])
    ∧ ((sendToLogQueue queue entry false oracle).subrequestsMade < 45 →
        (sendToLogQueue queue entry false oracle).remaining = []) := by
  intro queue entry oracle
  have h := flushAux_props oracle (queue ++ [entry]).length (queue ++ [entry]) 0 0 []
    (Nat.le_refl _) (by omega) (by intro b hb; simp at hb)
  exact h

/-- C9 witness: the amended statement instantiated at a one-entry buffer with
a succeeding queue, where the run ends below the cap with the buffer
drained. -/
theorem c9_witness :
    (sendToLogQueue [] "x" false allOk).remaining = [] :=
  (c9_flush_contract [] "x" allOk).2.2.2 (by decide)

/-- The natural-id column of every live row, in table order. -/
def keysOf (t : List VulnRow) : List JsVal :=
  t.map VulnRow.cve_id

/-- The last record in a list whose cveId equals the key, if any: after a
batch, a key's row holds the values of the last upsert for that key. -/
def findLastRec : List VulnRecord → JsVal → Option VulnRecord
  | [], _ => none
  | q :: rest, k =>
      match findLastRec rest k with
      | some r => some r
      | none => if q.cveId = k then some q else none

/-- The net effect of one upsert pass on a row whose key is already present:
its mutable fields take the values of the last record with its key, if any. -/
def passUpdate (rs : List VulnRecord) (row : VulnRow) : VulnRow :=
  match findLastRec rs row.cve_id with
  | some q => applyUpdate row q
  | none => row

theorem applyUpdate_cve_id (row : VulnRow) (r : VulnRecord) :
    (applyUpdate row r).cve_id = row.cve_id := rfl

theorem applyUpdate_absorb (row : VulnRow) (r q : VulnRecord) :
    applyUpdate (applyUpdate row r) q = applyUpdate row q := rfl

theorem applyUpdate_rowOfRecord (r : VulnRecord) :
    applyUpdate (rowOfRecord r) r = rowOfRecord r := rfl

theorem updKey_cve_id (r : VulnRecord) (row : VulnRow) :
    (updKey r row).cve_id = row.cve_id := by
  unfold updKey
  split <;> rfl

theorem map_congr_mem {α β : Type} {f g : α → β} :
    ∀ (l : List α), (∀ a ∈ l, f a = g a) → l.map f = l.map g := by
  intro l
  induction l with
  | nil => intro _; rfl
  | cons a l ih =>
      intro h
      simp only [List.map_cons]
      rw [h a (by simp), ih fun x hx => h x (by simp [hx])]

theorem containsKey_map_updKey (t : List VulnRow) (r : VulnRecord) (k : JsVal) :
    containsKey (t.map (updKey r)) k = containsKey t k := by
  unfold containsKey
  induction t with
  | nil => rfl
  | cons row t ih => simp [updKey_cve_id, ih]

theorem upsertOne_present {t : List VulnRow} {r : VulnRecord}
    (h : containsKey t r.cveId = true) : upsertOne t r = t.map (updKey r) := by
  unfold upsertOne
  rw [if_pos h]

theorem upsertOne_absent {t : List VulnRow} {r : VulnRecord}
    (h : containsKey t r.cveId = false) : upsertOne t r = t ++ [rowOfRecord r] := by
  unfold upsertOne
  simp [h]

theorem containsKey_upsertOne_mono {t : List VulnRow} {k : JsVal} (r : VulnRecord)
    (h : containsKey t k = true) : containsKey (upsertOne t r) k = true := by
  unfold upsertOne
  split
  · rw [containsKey_map_updKey]
    exact h
  · unfold containsKey at h ⊢
    simp [h]

theorem containsKey_upsertOne_self (t : List VulnRow) (r : VulnRecord) :
    containsKey (upsertOne t r) r.cveId = true := by
  unfold upsertOne
  split
  · rw [containsKey_map_updKey]
    assumption
  · unfold containsKey
    simp [rowOfRecord]

theorem containsKey_upsertBatch_mono :
    ∀ (rs : List VulnRecord) (t : List VulnRow) (k : JsVal),
    containsKey t k = true → containsKey (upsertBatch t rs) k = true := by
  intro rs
  induction rs with
  | nil => intro t k h; exact h
  | cons r rs ih => intro t k h; exact ih _ _ (containsKey_upsertOne_mono r h)

theorem containsKey_upsertBatch (rs : List VulnRecord) (t : List VulnRow) :
    ∀ r ∈ rs, containsKey (upsertBatch t rs) r.cveId = true := by
  induction rs generalizing t with
  | nil => intro r hr; cases hr
  | cons q rs ih =>
      intro r hr
      rcases List.mem_cons.mp hr with hr | hr
      · subst hr
        exact containsKey_upsertBatch_mono rs _ _ (containsKey_upsertOne_self t r)
      · exact ih (upsertOne t q) r hr

theorem passUpdate_cons (r : VulnRecord) (rs : List VulnRecord) (row : VulnRow) :
    passUpdate (r :: rs) row = passUpdate rs (updKey r row) := by
  unfold passUpdate
  rw [updKey_cve_id]
  show (match (match findLastRec rs row.cve_id with
        | some q => some q
        | none => if r.cveId = row.cve_id then some r else none) with
      | some q => applyUpdate row q
      | none => row) = _
  cases hf : findLastRec rs row.cve_id with
  | some q =>
      show applyUpdate row q = _
      unfold updKey
      by_cases hk : row.cve_id = r.cveId
      · rw [if_pos hk]
        exact (applyUpdate_absorb row r q).symm
      · rw [if_neg hk]
  | none =>
      unfold updKey
      by_cases hk : row.cve_id = r.cveId
      · rw [if_pos hk, if_pos hk.symm]
      · rw [if_neg hk, if_neg fun e => hk e.symm]

theorem upsertBatch_present :
    ∀ (rs : List VulnRecord) (t : List VulnRow),
    (∀ r ∈ rs, containsKey t r.cveId = true) →
    upsertBatch t rs = t.map (passUpdate rs) := by
  intro rs
  induction rs with
  | nil =>
      intro t _
      show t = t.map (passUpdate [])
      induction t with
      | nil => rfl
      | cons a l ih =>
          rw [List.map_cons, show passUpdate [] a = a from rfl, ← ih]
          intro r hr
          cases hr
  | cons r rs ih =>
      intro t h
      have hr : containsKey t r.cveId = true := h r (by simp)
      show upsertBatch (upsertOne t r) rs = _
      rw [upsertOne_present hr,
        ih (t.map (updKey r))
          (fun q hq => by rw [containsKey_map_updKey]; exact h q (by simp [hq])),
        List.map_map]
      exact map_congr_mem t fun row _ => (passUpdate_cons r rs row).symm

theorem findLastRec_eq_none :
    ∀ (rs : List VulnRecord) (k : JsVal),
    findLastRec rs k = none ↔ ∀ q ∈ rs, q.cveId ≠ k := by
  intro rs k
  induction rs with
  | nil => simp [findLastRec]
  | cons q rs ih =>
      constructor
      · intro h p hp
        have hmatch : (match findLastRec rs k with
            | some r => some r
            | none => if q.cveId = k then some q else none) = none := h
        cases hf : findLastRec rs k with
        | some r => rw [hf] at hmatch; cases hmatch
        | none =>
            rw [hf] at hmatch
            rcases List.mem_cons.mp hp with hp | hp
            · subst hp
              intro he
              rw [if_pos he] at hmatch
              cases hmatch
            · exact (ih.mp hf) p hp
      · intro h
        show (match findLastRec rs k with
            | some r => some r
            | none => if q.cveId = k then some q else none) = none
        rw [ih.mpr fun p hp => h p (by simp [hp])]
        rw [if_neg (h q (by simp))]

theorem upsertOne_absorbed {t : List VulnRow} {r : VulnRecord} {row : VulnRow}
    (hrow : row ∈ upsertOne t r) (hk : row.cve_id = r.cveId) :
    applyUpdate row r = row := by
  unfold upsertOne at hrow
  by_cases hc : containsKey t r.cveId = true
  · rw [if_pos hc] at hrow
    obtain ⟨x, hx, hxe⟩ := List.mem_map.mp hrow
    unfold updKey at hxe
    by_cases hx2 : x.cve_id = r.cveId
    · rw [if_pos hx2] at hxe
      rw [← hxe, applyUpdate_absorb]
    · rw [if_neg hx2] at hxe
      rw [← hxe] at hk
      exact absurd hk hx2
  · rw [if_neg hc] at hrow
    rcases List.mem_append.mp hrow with hx | hx
    · exfalso
      exact hc (List.any_eq_true.mpr ⟨row, hx, by simp [hk]⟩)
    · have : row = rowOfRecord r := by simpa using hx
      subst this
      exact applyUpdate_rowOfRecord r

theorem upsertBatch_no_key :
    ∀ (rs : List VulnRecord) (t : List VulnRow) (k : JsVal) (row : VulnRow),
    (∀ q ∈ rs, q.cveId ≠ k) → row ∈ upsertBatch t rs → row.cve_id = k → row ∈ t := by
  intro rs
  induction rs with
  | nil => intro t k row _ h _; exact h
  | cons r rs ih =>
      intro t k row hq hmem hk
      have h1 : row ∈ upsertOne t r :=
        ih (upsertOne t r) k row (fun q hq2 => hq q (by simp [hq2])) hmem hk
      have hrK : r.cveId ≠ k := hq r (by simp)
      unfold upsertOne at h1
      by_cases hc : containsKey t r.cveId = true
      · rw [if_pos hc] at h1
        obtain ⟨x, hx, hxe⟩ := List.mem_map.mp h1
        unfold updKey at hxe
        by_cases hx2 : x.cve_id = r.cveId
        · rw [if_pos hx2] at hxe
          exfalso
          apply hrK
          rw [← hx2, ← hk, ← hxe, applyUpdate_cve_id]
        · rw [if_neg hx2] at hxe
          rw [← hxe]
          exact hx
      · rw [if_neg hc] at h1
        rcases List.mem_append.mp h1 with hx | hx
        · exact hx
        · exfalso
          have : row = rowOfRecord r := by simpa using hx
          subst this
          exact hrK hk

theorem passUpdate_fixed :
    ∀ (rs : List VulnRecord) (t : List VulnRow) (row : VulnRow),
    row ∈ upsertBatch t rs → passUpdate rs row = row := by
  intro rs
  induction rs with
  | nil => intro t row _; rfl
  | cons r rs ih =>
      intro t row hmem
      have hmem' : row ∈ upsertBatch (upsertOne t r) rs := hmem
      have hIH := ih (upsertOne t r) row hmem'
      rw [passUpdate_cons]
      by_cases hk : row.cve_id = r.cveId
      · have hupd : updKey r row = applyUpdate row r := by
          unfold updKey; rw [if_pos hk]
        rw [hupd]
        cases hf : findLastRec rs row.cve_id with
        | some q =>
            have h2 : passUpdate rs (applyUpdate row r) =
                applyUpdate (applyUpdate row r) q := by
              unfold passUpdate
              rw [applyUpdate_cve_id, hf]
            have h3 : passUpdate rs row = applyUpdate row q := by
              unfold passUpdate
              rw [hf]
            rw [h2, applyUpdate_absorb, ← h3]
            exact hIH
        | none =>
            have h2 : passUpdate rs (applyUpdate row r) = applyUpdate row r := by
              unfold passUpdate
              rw [applyUpdate_cve_id, hf]
            rw [h2]
            have hnone := (findLastRec_eq_none rs row.cve_id).mp hf
            have hrow1 : row ∈ upsertOne t r :=
              upsertBatch_no_key rs (upsertOne t r) row.cve_id row hnone hmem' rfl
            exact upsertOne_absorbed hrow1 hk
      · have hupd : updKey r row = row := by
          unfold updKey; rw [if_neg hk]
        rw [hupd]
        exact hIH

theorem keysOf_upsertOne_present {t : List VulnRow} {r : VulnRecord}
    (h : containsKey t r.cveId = true) : keysOf (upsertOne t r) = keysOf t := by
  rw [upsertOne_present h]
  unfold keysOf
  rw [List.map_map]
  exact map_congr_mem t fun row _ => updKey_cve_id r row

theorem not_mem_keysOf {t : List VulnRow} {k : JsVal}
    (h : containsKey t k = false) : k ∉ keysOf t := by
  intro hk
  obtain ⟨row, hrow, hke⟩ := List.mem_map.mp hk
  have : containsKey t k = true := List.any_eq_true.mpr ⟨row, hrow, by simp [hke]⟩
  rw [h] at this
  cases this

theorem nodup_keysOf_upsertOne (t : List VulnRow) (r : VulnRecord)
    (h : (keysOf t).Nodup) : (keysOf (upsertOne t r)).Nodup := by
  by_cases hc : containsKey t r.cveId = true
  · rw [keysOf_upsertOne_present hc]
    exact h
  · have hc' : containsKey t r.cveId = false := by
      cases hcc : containsKey t r.cveId with
      | false => rfl
      | true => exact absurd hcc hc
    rw [upsertOne_absent hc']
    unfold keysOf
    rw [List.map_append]
    rw [List.nodup_append]
    refine ⟨h, List.nodup_singleton _, ?_⟩
    intro a ha hb
    have hb' : a = r.cveId := by simpa [rowOfRecord] using hb
    subst hb'
    exact not_mem_keysOf hc' ha

theorem nodup_keysOf_upsertBatch :
    ∀ (rs : List VulnRecord) (t : List VulnRow),
    (keysOf t).Nodup → (keysOf (upsertBatch t rs)).Nodup := by
  intro rs
  induction rs with
  | nil => intro t h; exact h
  | cons r rs ih =>
      intro t h
      exact ih (upsertOne t r) (nodup_keysOf_upsertOne t r h)

/-- C6: the sink writer's upsert is idempotent and key-preserving — applying
the batch upsert twice with the same list of records leaves the
vulnerabilities table in exactly the same state as applying it once; a table
with no duplicate live cve_id keys never acquires one through an upsert
batch; and upserting a record whose cve_id is already present rewrites the
matching row's mutable fields in place (no row is added, every row keeps its
cve_id). -/
theorem c6_upsert_idempotent :
    (∀ (t : List VulnRow) (rs : List VulnRecord),
      upsertBatch (upsertBatch t rs) rs = upsertBatch t rs)
    ∧ (∀ (t : List VulnRow) (rs : List VulnRecord),
        (keysOf t).Nodup → (keysOf (upsertBatch t rs)).Nodup)
    ∧ (∀ (t : List VulnRow) (r : VulnRecord),
        containsKey t r.cveId = true →
        upsertOne t r = t.map (updKey r) ∧ keysOf (upsertOne t r) = keysOf t) := by
  refine ⟨?_, ?_, ?_⟩
  · intro t rs
    rw [upsertBatch_present rs (upsertBatch t rs) (containsKey_upsertBatch rs t)]
    calc (upsertBatch t rs).map (passUpdate rs)
        = (upsertBatch t rs).map id :=
          map_congr_mem _ fun row hrow => passUpdate_fixed rs t row hrow
      _ = upsertBatch t rs := List.map_id _
  · intro t rs h
    exact nodup_keysOf_upsertBatch rs t h
  · intro t r h
    exact ⟨upsertOne_present h, keysOf_upsertOne_present h⟩

/-- C6 witness: the statement instantiated at a concrete table and batch —
a duplicate-free one-row table re-ingesting the same natural id. -/
theorem c6_witness :
    upsertBatch
        (upsertBatch [rowOfRecord (sampleRecord "CVE-A" "T0")]
          [sampleRecord "CVE-A" "T1", sampleRecord "CVE-B" "T1"])
        [sampleRecord "CVE-A" "T1", sampleRecord "CVE-B" "T1"] =
      upsertBatch [rowOfRecord (sampleRecord "CVE-A" "T0")]
        [sampleRecord "CVE-A" "T1", sampleRecord "CVE-B" "T1"]
    ∧ (keysOf (upsertBatch [rowOfRecord (sampleRecord "CVE-A" "T0")]
        [sampleRecord "CVE-A" "T1", sampleRecord "CVE-B" "T1"])).Nodup
    ∧ keysOf (upsertOne [rowOfRecord (sampleRecord "CVE-A" "T0")]
        (sampleRecord "CVE-A" "T1")) =
      keysOf [rowOfRecord (sampleRecord "CVE-A" "T0")] := by
  refine ⟨?_, ?_, ?_⟩
  · exact c6_upsert_idempotent.1 [rowOfRecord (sampleRecord "CVE-A" "T0")]
      [sampleRecord "CVE-A" "T1", sampleRecord "CVE-B" "T1"]
  · exact c6_upsert_idempotent.2.1 [rowOfRecord (sampleRecord "CVE-A" "T0")]
      [sampleRecord "CVE-A" "T1", sampleRecord "CVE-B" "T1"] (by decide)
  · exact (c6_upsert_idempotent.2.2 [rowOfRecord (sampleRecord "CVE-A" "T0")]
      (sampleRecord "CVE-A" "T1") (by decide)).2

/-- Whether every element of a list is non-nullish (safe to access a property
on). -/
def elemsSafe : List JsVal → Bool
  | [] => true
  | .null :: _ => false
  | .undef :: _ => false
  | _ :: xs => elemsSafe xs

/-- Whether a field value can be fed to .map or .find without throwing: it is
absent or null (the optional chain short-circuits) or an array whose elements
are non-nullish (so the per-element property accesses do not throw). -/
def listSafe : JsVal → Bool
  | .undef => true
  | .null => true
  | .arr xs => elemsSafe xs
  | _ => false

theorem exceptBindOk {ε α β : Type} (a : α) (f : α → Except ε β) :
    (Except.ok a : Except ε α) >>= f = f a := rfl

theorem truthy_ne_nullish {v : JsVal} (h : truthy v = true) :
    v ≠ .null ∧ v ≠ .undef := by
  constructor <;> rintro rfl <;> simp [truthy] at h

theorem getProp_ok (v : JsVal) (k : String) (h1 : v ≠ .null) (h2 : v ≠ .undef) :
    v.getProp k = .ok (v.optProp k) := by
  cases v with
  | null => exact absurd rfl h1
  | undef => exact absurd rfl h2
  | bool b => rfl
  | num n => rfl
  | str s => rfl
  | arr xs => rfl
  | obj fs => rfl

theorem inner_ne_nullish {v : JsVal} {k : String}
    (h : truthy (v.optProp k) = true) : v ≠ .null ∧ v ≠ .undef := by
  constructor <;> rintro rfl <;> simp [optProp, truthy] at h

theorem jsOr_ne_nullish {a b : JsVal} (hb : b ≠ .null ∧ b ≠ .undef) :
    jsOr a b ≠ .null ∧ jsOr a b ≠ .undef := by
  unfold jsOr
  split
  · next h => exact truthy_ne_nullish h
  · exact hb

theorem refUrlList_safe :
    ∀ (xs : List JsVal), elemsSafe xs = true → ∃ us, refUrlList xs = .ok us := by
  intro xs
  induction xs with
  | nil => intro _; exact ⟨[], rfl⟩
  | cons x xs ih =>
      intro h
      have hx : x ≠ .null ∧ x ≠ .undef := by
        constructor <;> rintro rfl <;> simp [elemsSafe] at h
      have hxs : elemsSafe xs = true := by
        cases x <;> simp [elemsSafe] at h ⊢ <;> try exact h
      obtain ⟨us, hus⟩ := ih hxs
      refine ⟨x.optProp "url" :: us, ?_⟩
      have hstep : refUrlList (x :: xs) = (do
          let u ← x.getProp "url"
          let us2 ← refUrlList xs
          Except.ok (u :: us2)) := rfl
      rw [hstep, getProp_ok x "url" hx.1 hx.2, hus]
      rfl

theorem jsMapUrlsJoin_safe (v : JsVal) (h : listSafe v = true) :
    ∃ u, jsMapUrlsJoin v = .ok u := by
  cases v with
  | undef => exact ⟨.undef, rfl⟩
  | null => exact ⟨.undef, rfl⟩
  | arr xs =>
      obtain ⟨us, hus⟩ := refUrlList_safe xs (by simpa [listSafe] using h)
      refine ⟨.str (joinStrList (us.filter truthy)), ?_⟩
      have hstep : jsMapUrlsJoin (.arr xs) = (do
          let urls ← refUrlList xs
          Except.ok (.str (joinStrList (urls.filter truthy)))) := rfl
      rw [hstep, hus]
      rfl
  | bool b => simp [listSafe] at h
  | num n => simp [listSafe] at h
  | str s => simp [listSafe] at h
  | obj fs => simp [listSafe] at h

theorem findEnValue_safe :
    ∀ (xs : List JsVal), elemsSafe xs = true → ∃ u, findEnValue xs = .ok u := by
  intro xs
  induction xs with
  | nil => intro _; exact ⟨.undef, rfl⟩
  | cons x xs ih =>
      intro h
      have hx : x ≠ .null ∧ x ≠ .undef := by
        constructor <;> rintro rfl <;> simp [elemsSafe] at h
      have hxs : elemsSafe xs = true := by
        cases x <;> simp [elemsSafe] at h ⊢ <;> try exact h
      obtain ⟨u, hu⟩ := ih hxs
      have hstep : findEnValue (x :: xs) = (do
          let lang ← x.getProp "lang"
          if lang = JsVal.str "en" then Except.ok (x.optProp "value")
          else findEnValue xs) := rfl
      by_cases he : x.optProp "lang" = .str "en"
      · refine ⟨x.optProp "value", ?_⟩
        rw [hstep, getProp_ok x "lang" hx.1 hx.2]
        show (if x.optProp "lang" = JsVal.str "en" then Except.ok (x.optProp "value")
          else findEnValue xs) = _
        rw [if_pos he]
      · refine ⟨u, ?_⟩
        rw [hstep, getProp_ok x "lang" hx.1 hx.2]
        show (if x.optProp "lang" = JsVal.str "en" then Except.ok (x.optProp "value")
          else findEnValue xs) = _
        rw [if_neg he, hu]

theorem jsFindEnValue_safe (v : JsVal) (h : listSafe v = true) :
    ∃ u, jsFindEnValue v = .ok u := by
  cases v with
  | undef => exact ⟨.undef, rfl⟩
  | null => exact ⟨.undef, rfl⟩
  | arr xs => exact findEnValue_safe xs (by simpa [listSafe] using h)
  | bool b => simp [listSafe] at h
  | num n => simp [listSafe] at h
  | str s => simp [listSafe] at h
  | obj fs => simp [listSafe] at h

theorem processVulnerabilityItem_guard_true {item : JsVal} (now : String)
    (hguard : truthy (optProp (optProp item "cve") "id") = true)
    (hrefs : listSafe (optProp (optProp item "cve") "references") = true)
    (hdescs : listSafe (optProp (optProp item "cve") "descriptions") = true) :
    ∃ rec, processVulnerabilityItem item now = .ok (some rec) := by
  have hcve : optProp item "cve" ≠ .null ∧ optProp item "cve" ≠ .undef :=
    inner_ne_nullish hguard
  have hitem : item ≠ .null ∧ item ≠ .undef := by
    constructor <;> rintro rfl <;> exact hcve.2 rfl
  have hmetrics :
      jsOr (optProp (optIndex (optProp (optProp (optProp item "cve") "metrics") "cvssMetricV31") 0) "cvssData")
        (jsOr (optProp (optIndex (optProp (optProp (optProp item "cve") "metrics") "cvssMetricV2") 0) "cvssData")
          (.obj [])) ≠ .null ∧
      jsOr (optProp (optIndex (optProp (optProp (optProp item "cve") "metrics") "cvssMetricV31") 0) "cvssData")
        (jsOr (optProp (optIndex (optProp (optProp (optProp item "cve") "metrics") "cvssMetricV2") 0) "cvssData")
          (.obj [])) ≠ .undef :=
    jsOr_ne_nullish (jsOr_ne_nullish (by constructor <;> rintro h <;> cases h))
  obtain ⟨u, hu⟩ := jsMapUrlsJoin_safe _ hrefs
  obtain ⟨d, hd⟩ := jsFindEnValue_safe _ hdescs
  apply Exists.intro
  unfold processVulnerabilityItem
  rw [if_neg (by simp [hguard])]
  simp only [getProp_ok item "cve" hitem.1 hitem.2,
    getProp_ok (optProp item "cve") "metrics" hcve.1 hcve.2,
    getProp_ok (optProp item "cve") "references" hcve.1 hcve.2,
    getProp_ok (optProp item "cve") "id" hcve.1 hcve.2,
    getProp_ok (optProp item "cve") "descriptions" hcve.1 hcve.2,
    getProp_ok (optProp item "cve") "sourceIdentifier" hcve.1 hcve.2,
    getProp_ok (optProp item "cve") "published" hcve.1 hcve.2,
    getProp_ok (optProp item "cve") "lastModified" hcve.1 hcve.2,
    getProp_ok (optProp item "cve") "weaknesses" hcve.1 hcve.2,
    getProp_ok _ "baseScore" hmetrics.1 hmetrics.2,
    getProp_ok _ "vectorString" hmetrics.1 hmetrics.2,
    hu, hd, exceptBindOk]
  rfl

/-- Whether the normalizer threw (an exception escaped) on the given item. -/
def threwOn (item : JsVal) (now : String) : Bool :=
  match processVulnerabilityItem item now with
  | .error _ => true
  | .ok _ => false

/-- C7 counterexample: two items that carry a perfectly good natural id but a
malformed nested field make processVulnerabilityItem throw a TypeError
instead of returning a record or the Invalid marker — a references field
holding the number 5 (so .map is not a function), and a references array
containing null (so ref.url throws). -/
theorem c7_counterexample :
    processVulnerabilityItem
        (.obj [("cve", .obj [("id", .str "CVE-1"), ("references", .num 5)])]) "T"
      = .error (.typeError "cveData.references.map is not a function")
    ∧ threwOn
        (.obj [("cve", .obj [("id", .str "CVE-1"), ("references", .num 5)])]) "T"
      = true
    ∧ processVulnerabilityItem
        (.obj [("cve", .obj [("id", .str "CVE-2"), ("references", .arr [.null])])]) "T"
      = .error (.typeError "Cannot read properties of null (reading url)")
    ∧ threwOn
        (.obj [("cve", .obj [("id", .str "CVE-2"), ("references", .arr [.null])])]) "T"
      = true := by
  exact ⟨rfl, rfl, rfl, rfl⟩

/-- C7 (amended): the record normalizer is total over upstream items whose
references and descriptions fields, where present and non-null, are arrays
of non-nullish elements: on such items it never throws, and it returns the
Invalid marker (null) exactly when the item lacks a truthy natural id
(item.cve.id); over a page of such items, the number of normalized records
is exactly the number of items carrying a natural id, so invalid items are
excluded and countable, not silently conflated.  Outside that domain the
function can throw (see the counterexample), so it is not total over all
plausible JSON shapes. -/
theorem c7_normalizer_total_on_safe_shapes :
    (∀ (item : JsVal) (now : String),
      listSafe (optProp (optProp item "cve") "references") = true →
      listSafe (optProp (optProp item "cve") "descriptions") = true →
      (∃ res, processVulnerabilityItem item now = .ok res)
      ∧ (processVulnerabilityItem item now = .ok none ↔
          truthy (optProp (optProp item "cve") "id") = false))
    ∧ (∀ (items : List JsVal) (now : String),
        (∀ it ∈ items,
          listSafe (optProp (optProp it "cve") "references") = true ∧
          listSafe (optProp (optProp it "cve") "descriptions") = true) →
        ∃ rs, processAll items now = .ok rs ∧
          rs.length = (items.filter fun it =>
            truthy (optProp (optProp it "cve") "id")).length) := by
  have hA : ∀ (item : JsVal) (now : String),
      listSafe (optProp (optProp item "cve") "references") = true →
      listSafe (optProp (optProp item "cve") "descriptions") = true →
      (∃ res, processVulnerabilityItem item now = .ok res)
      ∧ (processVulnerabilityItem item now = .ok none ↔
          truthy (optProp (optProp item "cve") "id") = false) := by
    intro item now hrefs hdescs
    by_cases hg : truthy (optProp (optProp item "cve") "id") = true
    · obtain ⟨rec, hrec⟩ := processVulnerabilityItem_guard_true now hg hrefs hdescs
      refine ⟨⟨some rec, hrec⟩, ?_, ?_⟩
      · intro h
        rw [hrec] at h
        simp at h
      · intro h
        rw [hg] at h
        cases h
    · have hg' : truthy (optProp (optProp item "cve") "id") = false := by
        cases hx : truthy (optProp (optProp item "cve") "id") with
        | true => exact absurd hx hg
        | false => rfl
      have hnone : processVulnerabilityItem item now = .ok none := by
        unfold processVulnerabilityItem
        rw [if_pos hg']
      exact ⟨⟨none, hnone⟩, fun _ => hg', fun _ => hnone⟩
  refine ⟨hA, ?_⟩
  intro items now
  induction items with
  | nil => intro _; exact ⟨[], rfl, rfl⟩
  | cons x xs ih =>
      intro hsafe
      obtain ⟨rs, hrs, hlen⟩ := ih fun it hit => hsafe it (by simp [hit])
      have hx := hA x now (hsafe x (by simp)).1 (hsafe x (by simp)).2
      obtain ⟨res, hres⟩ := hx.1
      have hstep : processAll (x :: xs) now = (do
          let r ← processVulnerabilityItem x now
          let rest ← processAll xs now
          match r with
          | none => Except.ok rest
          | some rec => Except.ok (rec :: rest)) := rfl
      by_cases hg : truthy (optProp (optProp x "cve") "id") = false
      · have hnone : processVulnerabilityItem x now = .ok none := hx.2.mpr hg
        refine ⟨rs, ?_, ?_⟩
        · rw [hstep, hnone, hrs]
          rfl
        · simp [List.filter_cons, hg, hlen]
      · have hgt : truthy (optProp (optProp x "cve") "id") = true := by
          cases h2 : truthy (optProp (optProp x "cve") "id") with
          | true => rfl
          | false => exact absurd h2 hg
        cases res with
        | none => exact absurd (hx.2.mp hres) hg
        | some rec =>
            refine ⟨rec :: rs, ?_, ?_⟩
            · rw [hstep, hres, hrs]
              rfl
            · simp [List.filter_cons, hgt, hlen]

/-- C7 witness: the amended statement instantiated at a minimal safe item
(references and descriptions absent) and a two-item page in which one item
is null and hence invalid. -/
theorem c7_witness :
    (∃ res, processVulnerabilityItem (validItem "CVE-9") "T" = .ok res)
    ∧ (∃ rs, processAll [validItem "CVE-9", JsVal.null] "T" = .ok rs ∧
        rs.length = (([validItem "CVE-9", JsVal.null].filter fun it =>
          truthy (optProp (optProp it "cve") "id"))).length) := by
  constructor
  · exact (c7_normalizer_total_on_safe_shapes.1 (validItem "CVE-9") "T"
      (by decide) (by decide)).1
  · exact c7_normalizer_total_on_safe_shapes.2 [validItem "CVE-9", JsVal.null] "T"
      (by decide)

end ThreatIntel
